import Mathlib

/-!
Verification of the sea-query SQL construction library against its
natural-language specification.  The data model and operations below are a
shallow embedding of the Rust sources:

* `src/types.rs`        — `Iden`, `TableRef`, operators, keywords
* `src/func.rs`         — `Function`, the `Func` helpers
* `src/extension/postgres/types.rs` — Postgres `TYPE` DDL statements
* `src/foreign_key/common.rs`       — `TableForeignKey`

An `Iden` in Rust is a capability to write its unquoted text into a
character sink (`fmt::Write`); we model a sink as a `String` being appended
to, and an `Iden` instance as the text it writes.  SQL text produced by the
rendering engine is modelled as a list of characters (`SqlText`).  Modules
of the repository that are not present under `src/` (the dialect backends,
`prepare.rs`, the table module) are modelled from the specification and are
marked `Modelled from the spec:` in their doc comments.
-/

namespace SeaQuery

/-- Rendered SQL text, modelled as a list of characters. -/
abbrev SqlText := List Char

/-- An identifier: in the source, a trait object whose only observable
behaviour is writing an unquoted textual form into a sink.  We model an
instance by the text it writes. -/
structure Iden where
  text : String
deriving DecidableEq

/-- `Iden::unquoted` (src/types.rs): write the unquoted textual form into
the sink. -/
def Iden.unquoted (i : Iden) (s : String) : String :=
  s ++ i.text

/-- `Iden::prepare` (src/types.rs lines 9-13): write the quote character,
then the unquoted form, then the quote character again. -/
def Iden.prepare (i : Iden) (s : String) (q : Char) : String :=
  (i.unquoted (s.push q)).push q

/-- `Iden::to_string` (src/types.rs lines 15-19): write the unquoted form
into a fresh empty sink and return it. -/
def Iden.to_string (i : Iden) : String :=
  Iden.unquoted i ""

/-- Modelled from the spec: the abstract error kinds of spec section 7.
The `error` module is absent from `src/`; in the source a violation either
panics or is a tagged failure, which the spec names abstractly. -/
inductive Error where
  | ColumnsNotEqual
  | InsertValuesEmpty
  | AlterTableOptionEmpty
  | UnsupportedOnDialect
  | BindMismatch
  | CustomArgsMismatch
  | UnexpectedTableRefAlias
deriving DecidableEq

/-- Modelled from the spec: the `query` module (`SelectStatement`) is
absent from `src/`.  None of the claims inspects a sub-query payload, so
the statement is modelled as a placeholder carrying no data. -/
structure SelectStatement where
deriving DecidableEq

/-- `TableRef` (src/types.rs lines 41-47). -/
inductive TableRef where
  | Table : Iden → TableRef
  | SchemaTable : Iden → Iden → TableRef
  | TableAlias : Iden → Iden → TableRef
  | SchemaTableAlias : Iden → Iden → Iden → TableRef
  | SubQuery : SelectStatement → Iden → TableRef
deriving DecidableEq

/-- `TableRef::alias` (src/types.rs lines 154-165).  The source panics on
the non-`Table`/`SchemaTable` variants; the spec names that usage error
`UnexpectedTableRefAlias`, which we model as an `Except` failure. -/
def TableRef.alias : TableRef → Iden → Except Error TableRef
  | .Table table, a => .ok (.TableAlias table a)
  | .SchemaTable schema table, a => .ok (.SchemaTableAlias schema table a)
  | _, _ => .error .UnexpectedTableRefAlias

/-- `ForeignKeyAction` (src/foreign_key/common.rs lines 18-24). -/
inductive ForeignKeyAction where
  | Restrict
  | Cascade
  | SetNull
  | NoAction
  | SetDefault
deriving DecidableEq

/-- `TableForeignKey` (src/foreign_key/common.rs lines 6-14). -/
structure TableForeignKey where
  name : Option String
  table : Option Iden
  ref_table : Option Iden
  columns : List Iden
  ref_columns : List Iden
  on_delete : Option ForeignKeyAction
  on_update : Option ForeignKeyAction
deriving DecidableEq

/-- `TableForeignKey::new` (src/foreign_key/common.rs lines 34-44). -/
def TableForeignKey.new : TableForeignKey :=
  { name := none, table := none, ref_table := none,
    columns := [], ref_columns := [], on_delete := none, on_update := none }

/-- `TableForeignKey::name` (src/foreign_key/common.rs lines 47-50);
renamed `set_name` because the field is already called `name`. -/
def TableForeignKey.set_name (fk : TableForeignKey) (n : String) : TableForeignKey :=
  { fk with name := some n }

/-- `TableForeignKey::from_tbl` (src/foreign_key/common.rs lines 53-57). -/
def TableForeignKey.from_tbl (fk : TableForeignKey) (t : Iden) : TableForeignKey :=
  { fk with table := some t }

/-- `TableForeignKey::to_tbl` (src/foreign_key/common.rs lines 60-64). -/
def TableForeignKey.to_tbl (fk : TableForeignKey) (t : Iden) : TableForeignKey :=
  { fk with ref_table := some t }

/-- `TableForeignKey::from_col` (src/foreign_key/common.rs lines 67-71):
push one column onto the key column list. -/
def TableForeignKey.from_col (fk : TableForeignKey) (c : Iden) : TableForeignKey :=
  { fk with columns := fk.columns ++ [c] }

/-- `TableForeignKey::to_col` (src/foreign_key/common.rs lines 74-78):
push one column onto the referenced column list. -/
def TableForeignKey.to_col (fk : TableForeignKey) (c : Iden) : TableForeignKey :=
  { fk with ref_columns := fk.ref_columns ++ [c] }

/-- `TableForeignKey::on_delete` (src/foreign_key/common.rs lines 81-84);
renamed `set_on_delete` because the field is already called `on_delete`. -/
def TableForeignKey.set_on_delete (fk : TableForeignKey) (a : ForeignKeyAction) : TableForeignKey :=
  { fk with on_delete := some a }

/-- `TableForeignKey::on_update` (src/foreign_key/common.rs lines 87-90);
renamed `set_on_update` because the field is already called `on_update`. -/
def TableForeignKey.set_on_update (fk : TableForeignKey) (a : ForeignKeyAction) : TableForeignKey :=
  { fk with on_update := some a }

/-- `TypeAs` (src/extension/postgres/types.rs lines 16-22). -/
inductive TypeAs where
  | Enum
deriving DecidableEq

/-- `TypeAlterAddOpt` (src/extension/postgres/types.rs lines 51-54). -/
inductive TypeAlterAddOpt where
  | Before : Iden → TypeAlterAddOpt
  | After : Iden → TypeAlterAddOpt
deriving DecidableEq

/-- `TypeAlterOpt` (src/extension/postgres/types.rs lines 44-48). -/
inductive TypeAlterOpt where
  | Add : Iden → Option TypeAlterAddOpt → TypeAlterOpt
  | Rename : Iden → TypeAlterOpt
  | RenameValue : Iden → Iden → TypeAlterOpt
deriving DecidableEq

/-- `TypeAlterStatement` (src/extension/postgres/types.rs lines 32-35). -/
structure TypeAlterStatement where
  name : Option Iden
  option : Option TypeAlterOpt
deriving DecidableEq

/-- `TypeAlterOpt::before` (src/extension/postgres/types.rs lines 434-444):
changes only `Add` options into `Add … Before` options, does nothing
otherwise. -/
def TypeAlterOpt.before (o : TypeAlterOpt) (v : Iden) : TypeAlterOpt :=
  match o with
  | .Add iden _ => .Add iden (some (.Before v))
  | _ => o

/-- `TypeAlterOpt::after` (src/extension/postgres/types.rs lines 447-457). -/
def TypeAlterOpt.after (o : TypeAlterOpt) (v : Iden) : TypeAlterOpt :=
  match o with
  | .Add iden _ => .Add iden (some (.After v))
  | _ => o

/-- `TypeAlterStatement::before` (src/extension/postgres/types.rs lines
352-360): rewrite the option slot through `TypeAlterOpt::before` when it is
occupied, otherwise leave the statement unchanged. -/
def TypeAlterStatement.before (s : TypeAlterStatement) (v : Iden) : TypeAlterStatement :=
  match s.option with
  | some o => { s with option := some (o.before v) }
  | none => s

/-- `TypeAlterStatement::after` (src/extension/postgres/types.rs lines
362-370). -/
def TypeAlterStatement.after (s : TypeAlterStatement) (v : Iden) : TypeAlterStatement :=
  match s.option with
  | some o => { s with option := some (o.after v) }
  | none => s

/-- `TypeAlterStatement::alter_option` (src/extension/postgres/types.rs
lines 386-389). -/
def TypeAlterStatement.alter_option (s : TypeAlterStatement) (o : TypeAlterOpt) : TypeAlterStatement :=
  { s with option := some o }

/-- `TypeAlterStatement::add_value` (src/extension/postgres/types.rs lines
345-350). -/
def TypeAlterStatement.add_value (s : TypeAlterStatement) (v : Iden) : TypeAlterStatement :=
  s.alter_option (.Add v none)

/-- `TypeAlterStatement::rename_to` (src/extension/postgres/types.rs lines
372-377). -/
def TypeAlterStatement.rename_to (s : TypeAlterStatement) (n : Iden) : TypeAlterStatement :=
  s.alter_option (.Rename n)

/-- `TypeAlterStatement::rename_value` (src/extension/postgres/types.rs
lines 379-384). -/
def TypeAlterStatement.rename_value (s : TypeAlterStatement) (a b : Iden) : TypeAlterStatement :=
  s.alter_option (.RenameValue a b)

/-- The three first-class dialects (spec section 2; the backend module is
absent from `src/`). -/
inductive Dialect where
  | Mysql
  | Postgres
  | Sqlite
deriving DecidableEq

/-- Modelled from the spec: the dialect's identifier quote character,
a backtick (character 96) for MySQL and SQLite and a double quote for
Postgres (spec section 4.3; the backend module is absent from `src/`). -/
def quote_char (d : Dialect) : Char :=
  match d with
  | .Postgres => '"'
  | _ => Char.ofNat 96

/-- An identifier wrapped in the dialect's quote character, the list-level
counterpart of `Iden::prepare`. -/
def quoted_iden (d : Dialect) (i : Iden) : SqlText :=
  quote_char d :: i.text.data ++ [quote_char d]

/-- `Value` (spec section 3; `value.rs` is absent from `src/`).  The
floating-point and feature-gated payload variants are not needed by any
claim and are omitted from the embedding. -/
inductive Value where
  | Null
  | Bool : Bool → Value
  | TinyInt : Int → Value
  | SmallInt : Int → Value
  | Int : Int → Value
  | BigInt : Int → Value
  | TinyUnsigned : Nat → Value
  | SmallUnsigned : Nat → Value
  | Unsigned : Nat → Value
  | BigUnsigned : Nat → Value
  | Bytes : List Nat → Value
  | String : String → Value
deriving DecidableEq

/-- Decimal digits of a natural number, with explicit fuel so the
definition is structural; `natToChars` supplies sufficient fuel. -/
def natChars : Nat → Nat → List Char
  | 0, _ => []
  | f + 1, n =>
    if n < 10 then [Nat.digitChar n]
    else natChars f (n / 10) ++ [Nat.digitChar (n % 10)]

/-- Decimal rendering of a natural number. -/
def natToChars (n : Nat) : List Char :=
  natChars (n + 1) n

/-- Decimal rendering of an integer. -/
def intToChars (i : Int) : List Char :=
  if i < 0 then '-' :: natToChars i.natAbs else natToChars i.natAbs

/-- Numeric value of a decimal digit character. -/
def digitVal (c : Char) : Nat :=
  c.toNat - 48

/-- Read back a decimal digit string. -/
def digitsToNat (ds : List Char) : Nat :=
  ds.foldl (fun a c => a * 10 + digitVal c) 0

/-- Double every single quote, the escaping the spec prescribes for string
literals (spec section 4.5). -/
def escape_quotes : List Char → List Char
  | [] => []
  | c :: rest =>
    if c = '\'' then c :: c :: escape_quotes rest else c :: escape_quotes rest

/-- Two hexadecimal digit characters of a byte. -/
def byteHex (b : Nat) : List Char :=
  [Nat.digitChar (b / 16 % 16), Nat.digitChar (b % 16)]

/-- Modelled from the spec: the escaped literal a value inlines to
(section 4.5; `prepare.rs` is absent from `src/`): numbers as-is, booleans
as TRUE/FALSE, strings single-quoted with the quote doubled, bytes as an
x-prefixed hex blob literal, null as NULL. -/
def value_inline (v : Value) : SqlText :=
  match v with
  | .Null => "NULL".data
  | .Bool true => "TRUE".data
  | .Bool false => "FALSE".data
  | .TinyInt i => intToChars i
  | .SmallInt i => intToChars i
  | .Int i => intToChars i
  | .BigInt i => intToChars i
  | .TinyUnsigned n => natToChars n
  | .SmallUnsigned n => natToChars n
  | .Unsigned n => natToChars n
  | .BigUnsigned n => natToChars n
  | .Bytes bs => 'x' :: '\'' :: (bs.map byteHex).flatten ++ ['\'']
  | .String s => '\'' :: escape_quotes s.data ++ ['\'']

/-- `TypeCreateStatement` (src/extension/postgres/types.rs lines 9-13). -/
structure TypeCreateStatement where
  name : Option Iden
  as_type : Option TypeAs
  values : List Iden
deriving DecidableEq

/-- `TypeCreateStatement::new` (src/extension/postgres/types.rs lines
100-102): the all-default statement. -/
def TypeCreateStatement.new : TypeCreateStatement :=
  { name := none, as_type := none, values := [] }

/-- `TypeCreateStatement::as_enum` (src/extension/postgres/types.rs lines
135-142). -/
def TypeCreateStatement.as_enum (s : TypeCreateStatement) (n : Iden) : TypeCreateStatement :=
  { s with name := some n, as_type := some .Enum }

/-- `TypeCreateStatement::values` (src/extension/postgres/types.rs lines
144-153); renamed `add_values` because the field is already called
`values`.  Appends each given identifier to the value list. -/
def TypeCreateStatement.add_values (s : TypeCreateStatement) (vs : List Iden) : TypeCreateStatement :=
  { s with values := s.values ++ vs }

/-- Modelled from the spec: the enum-value section of the Postgres
`CREATE TYPE` render (sections 4.3-4.4; the backend module is absent from
`src/`).  Each value pushes `Value::String` of its text into the collector
and emits the placeholder `$N`, `N` being the 1-based collector position;
`n` counts values already collected, `first` suppresses the leading
separator.  The collector is an explicit state transformer. -/
def prepare_enum_values {σ : Type} (c : σ → Value → σ) :
    List Iden → σ → Nat → Bool → SqlText × σ
  | [], st, _, _ => ([], st)
  | v :: rest, st, n, first =>
    let out := prepare_enum_values c rest (c st (.String v.text)) (n + 1) false
    ((if first then [] else ", ".data) ++ '$' :: natToChars (n + 1) ++ out.1, out.2)

/-- The quoted type name of a `CREATE TYPE` statement, empty when the name
is unset. -/
def name_part (create : TypeCreateStatement) : SqlText :=
  match create.name with
  | some n => quoted_iden .Postgres n
  | none => []

/-- Modelled from the spec: the Postgres `TypeBuilder`'s
`prepare_type_create_statement` hook (sections 4.3-4.4; the backend module
is absent from `src/`): emit `CREATE TYPE`, the quoted name, and when the
statement is an enum an `AS ENUM ( … )` section whose values go through
the collector. -/
def prepare_type_create_statement {σ : Type} (create : TypeCreateStatement)
    (c : σ → Value → σ) (st : σ) : SqlText × σ :=
  match create.as_type with
  | some .Enum =>
    let out := prepare_enum_values c create.values st 0 true
    ("CREATE TYPE ".data ++ name_part create ++ " AS ENUM (".data ++ out.1 ++ [')'], out.2)
  | none => ("CREATE TYPE ".data ++ name_part create, st)

/-- `TypeCreateStatement::build_collect_ref` (src/extension/postgres/
types.rs lines 176-184): run the type builder's hook over a fresh writer
and return its result; the collector state is returned explicitly since
the embedding is pure. -/
def TypeCreateStatement.build_collect_ref {σ : Type} (s : TypeCreateStatement)
    (c : σ → Value → σ) (st : σ) : SqlText × σ :=
  prepare_type_create_statement s c st

/-- `TypeCreateStatement::build_collect` (src/extension/postgres/types.rs
lines 168-174): delegates to `build_collect_ref`. -/
def TypeCreateStatement.build_collect {σ : Type} (s : TypeCreateStatement)
    (c : σ → Value → σ) (st : σ) : SqlText × σ :=
  s.build_collect_ref c st

/-- `TypeCreateStatement::build_ref` (src/extension/postgres/types.rs
lines 161-166): run `build_collect_ref` with a collector that pushes each
value onto a local vector, and return the SQL together with that vector. -/
def TypeCreateStatement.build_ref (s : TypeCreateStatement) : SqlText × List Value :=
  s.build_collect_ref (fun params v => params ++ [v]) []

/-- `TypeCreateStatement::build` (src/extension/postgres/types.rs lines
157-159): delegates to `build_ref`. -/
def TypeCreateStatement.build (s : TypeCreateStatement) : SqlText × List Value :=
  s.build_ref

/-- Result-or-error sequencing for the scanners below. -/
def bindE {α β : Type} : Except Error α → (α → Except Error β) → Except Error β
  | .error e, _ => .error e
  | .ok a, f => f a

/-- The escaped literal for placeholder number `n` (1-based): `$N` uses
`N - 1` as index into the value vector (spec section 4.5); a missing value
is a bind mismatch. -/
def phValue (values : List Value) (n : Nat) : Except Error SqlText :=
  match values.get? (n - 1) with
  | some v => .ok (value_inline v)
  | none => .error .BindMismatch

/-- Modelled from the spec: the placeholder-substitution scan of
`inject_parameters` for the Postgres form `$N` (section 4.5; `prepare.rs`
is absent from `src/`).  The scan walks the SQL text once; `buf` is `some
digits` while inside a `$`-placeholder, and `used` counts placeholders
substituted so far.  A `$` not followed by digits is kept literally.  At
the end of the text a placeholder-vs-value count mismatch fails
`BindMismatch`. -/
def injectPG (values : List Value) : SqlText → Option SqlText → Nat → Except Error SqlText
  | [], none, used =>
    if used = values.length then .ok [] else .error .BindMismatch
  | [], some ds, used =>
    if ds.isEmpty then
      (if used = values.length then .ok ['$'] else .error .BindMismatch)
    else
      bindE (phValue values (digitsToNat ds)) fun t =>
        if used + 1 = values.length then .ok t else .error .BindMismatch
  | c :: rest, none, used =>
    if c = '$' then injectPG values rest (some []) used
    else bindE (injectPG values rest none used) fun t => .ok (c :: t)
  | c :: rest, some ds, used =>
    if c.isDigit then injectPG values rest (some (ds ++ [c])) used
    else if ds.isEmpty then
      (if c = '$' then bindE (injectPG values rest (some []) used) fun t => .ok ('$' :: t)
       else bindE (injectPG values rest none used) fun t => .ok ('$' :: c :: t))
    else
      bindE (phValue values (digitsToNat ds)) fun t1 =>
        (if c = '$' then
          bindE (injectPG values rest (some []) (used + 1)) fun t2 => .ok (t1 ++ t2)
         else
          bindE (injectPG values rest none (used + 1)) fun t2 => .ok (t1 ++ c :: t2))

/-- Modelled from the spec: `inject_parameters` (section 4.5; `prepare.rs`
is absent from `src/`), for the Postgres placeholder form — the only
dialect implementing `TypeBuilder`. -/
def inject_parameters (sql : SqlText) (values : List Value) : Except Error SqlText :=
  injectPG values sql none 0

/-- The placeholder numbers appearing in a SQL text, in textual order;
the scan mirrors `injectPG`. -/
def extractPH : SqlText → Option SqlText → List Nat
  | [], none => []
  | [], some ds => if ds.isEmpty then [] else [digitsToNat ds]
  | c :: rest, none =>
    if c = '$' then extractPH rest (some []) else extractPH rest none
  | c :: rest, some ds =>
    if c.isDigit then extractPH rest (some (ds ++ [c]))
    else if ds.isEmpty then
      (if c = '$' then extractPH rest (some []) else extractPH rest none)
    else
      digitsToNat ds ::
        (if c = '$' then extractPH rest (some []) else extractPH rest none)

/-- The placeholder numbers of a SQL text in order of appearance. -/
def placeholder_indices (sql : SqlText) : List Nat :=
  extractPH sql none

/-- The number of placeholders in a SQL text. -/
def count_placeholders (sql : SqlText) : Nat :=
  (placeholder_indices sql).length

/-- `TypeCreateStatement::to_string` (src/extension/postgres/types.rs
lines 187-193): run the normal render to collect `(sql, values)`, then
substitute each placeholder with an escaped literal. -/
def TypeCreateStatement.to_string (s : TypeCreateStatement) : Except Error SqlText :=
  inject_parameters s.build_ref.1 s.build_ref.2

/-- The placeholder section of the enum value list, as a standalone
function of the value count and start position. -/
def enum_ph_text (n : Nat) (first : Bool) : List Iden → SqlText
  | [] => []
  | _ :: rest =>
    (if first then [] else ", ".data) ++ '$' :: natToChars (n + 1) ++
      enum_ph_text (n + 1) false rest

/-- The enum value list with every placeholder replaced positionally by
the escaped literal of the corresponding collected value. -/
def enum_inline_text (first : Bool) : List Iden → SqlText
  | [] => []
  | v :: rest =>
    (if first then [] else ", ".data) ++ value_inline (.String v.text) ++
      enum_inline_text false rest

/-- The rendered `CREATE TYPE` statement with each placeholder replaced
positionally by the escaped literal of the corresponding collected value:
the reference output of the round-trip inlining property. -/
def type_create_inlined (s : TypeCreateStatement) : SqlText :=
  match s.as_type with
  | some .Enum =>
    "CREATE TYPE ".data ++ name_part s ++ " AS ENUM (".data ++
      enum_inline_text true s.values ++ [')']
  | none => "CREATE TYPE ".data ++ name_part s

/-- The caller obligation of spec section 6 specialised to the `$N`
placeholder form: the type name, which is emitted verbatim between quotes,
must not contain the placeholder trigger character. -/
def name_clean (s : TypeCreateStatement) : Bool :=
  match s.name with
  | some n => n.text.data.all (fun c => !(c == '$'))
  | none => true

/-- Modelled from the spec: a column definition (section 3; the table
module is absent from `src/`); only the column name is inspected by the
claims. -/
structure ColumnDef where
  name : Iden
deriving DecidableEq

/-- Modelled from the spec: the alter-table option, exactly one of
add / modify / rename / drop column (section 3; the table module is absent
from `src/`). -/
inductive TableAlterOption where
  | AddColumn : ColumnDef → TableAlterOption
  | ModifyColumn : ColumnDef → TableAlterOption
  | RenameColumn : Iden → Iden → TableAlterOption
  | DropColumn : Iden → TableAlterOption
deriving DecidableEq

/-- Modelled from the spec: `TableAlterStatement` (section 3; the table
module is absent from `src/`): a target table and a single option slot. -/
structure TableAlterStatement where
  table : Option Iden
  alter_option : Option TableAlterOption
deriving DecidableEq

/-- Modelled from the spec: `Table::alter()` constructs the all-default
alter statement, carrying no option. -/
def Table.alter : TableAlterStatement :=
  { table := none, alter_option := none }

/-- Modelled from the spec: `TableAlterStatement::table` sets the target
table. -/
def TableAlterStatement.set_table (s : TableAlterStatement) (t : Iden) : TableAlterStatement :=
  { s with table := some t }

/-- Modelled from the spec: `TableAlterStatement::add_column`. -/
def TableAlterStatement.add_column (s : TableAlterStatement) (c : ColumnDef) : TableAlterStatement :=
  { s with alter_option := some (.AddColumn c) }

/-- Modelled from the spec: `TableAlterStatement::modify_column`. -/
def TableAlterStatement.modify_column (s : TableAlterStatement) (c : ColumnDef) : TableAlterStatement :=
  { s with alter_option := some (.ModifyColumn c) }

/-- Modelled from the spec: `TableAlterStatement::rename_column`. -/
def TableAlterStatement.rename_column (s : TableAlterStatement) (a b : Iden) : TableAlterStatement :=
  { s with alter_option := some (.RenameColumn a b) }

/-- Modelled from the spec: `TableAlterStatement::drop_column`. -/
def TableAlterStatement.drop_column (s : TableAlterStatement) (a : Iden) : TableAlterStatement :=
  { s with alter_option := some (.DropColumn a) }

/-- Modelled from the spec: the alter-table render (sections 4.3-4.4; the
table module and backends are absent from `src/`): exactly one of ADD /
MODIFY / RENAME / DROP COLUMN is emitted; a statement carrying no option
is fatal, failing `AlterTableOptionEmpty` on every dialect.  Column type
and spec rendering is not inspected by any claim and is elided. -/
def prepare_table_alter_statement (d : Dialect) (s : TableAlterStatement) :
    Except Error SqlText :=
  match s.alter_option with
  | none => .error .AlterTableOptionEmpty
  | some o =>
    let tbl : SqlText :=
      match s.table with
      | some t => quoted_iden d t
      | none => []
    let body : SqlText :=
      match o with
      | .AddColumn c => "ADD COLUMN ".data ++ quoted_iden d c.name
      | .ModifyColumn c => "MODIFY COLUMN ".data ++ quoted_iden d c.name
      | .RenameColumn a b =>
        "RENAME COLUMN ".data ++ quoted_iden d a ++ " TO ".data ++ quoted_iden d b
      | .DropColumn a => "DROP COLUMN ".data ++ quoted_iden d a
    .ok ("ALTER TABLE ".data ++ tbl ++ " ".data ++ body)

/-- `Function` (src/func.rs lines 6-15). -/
inductive Function where
  | Max
  | Min
  | Sum
  | Avg
  | Count
  | IfNull
  | CharLength
  | Custom : Iden → Function
deriving DecidableEq

/-- Modelled from the spec: the `SimpleExpr` variants the claims construct
(section 3; `expr.rs` is absent from `src/`). -/
inductive SimpleExpr where
  | Value : Value → SimpleExpr
  | Column : Iden → SimpleExpr
  | FunctionCall : Function → List SimpleExpr → SimpleExpr

/-- `Func::if_null` (src/func.rs lines 265-268): a `FunctionCall` of
`IfNull` with the two arguments. -/
def Func.if_null (a b : SimpleExpr) : SimpleExpr :=
  .FunctionCall .IfNull [a, b]

/-- `Func::char_length` (src/func.rs lines 235-238): a `FunctionCall` of
`CharLength` with the single argument. -/
def Func.char_length (e : SimpleExpr) : SimpleExpr :=
  .FunctionCall .CharLength [e]

/-- `Func::max` (src/func.rs lines 85-88). -/
def Func.max (e : SimpleExpr) : SimpleExpr :=
  .FunctionCall .Max [e]

/-- `Func::count` (src/func.rs lines 205-208). -/
def Func.count (e : SimpleExpr) : SimpleExpr :=
  .FunctionCall .Count [e]

/-- Modelled from the spec: the dialect-specific function-name mapping
(the table of section 4.3; the backend module is absent from `src/`):
`IfNull` is IFNULL on MySQL and SQLite and COALESCE on Postgres;
`CharLength` is CHAR_LENGTH on MySQL and Postgres and LENGTH on SQLite. -/
def function_name (d : Dialect) (f : Function) : SqlText :=
  match f with
  | .Max => "MAX".data
  | .Min => "MIN".data
  | .Sum => "SUM".data
  | .Avg => "AVG".data
  | .Count => "COUNT".data
  | .IfNull =>
    match d with
    | .Postgres => "COALESCE".data
    | _ => "IFNULL".data
  | .CharLength =>
    match d with
    | .Sqlite => "LENGTH".data
    | _ => "CHAR_LENGTH".data
  | .Custom i => i.text.data

/-- Comma-join of rendered argument texts. -/
def join_args : List SqlText → SqlText
  | [] => []
  | [a] => a
  | a :: rest => a ++ ", ".data ++ join_args rest

/-- Modelled from the spec: the function-call render step (section 4.3
item 5; the backend module is absent from `src/`): the dialect's name for
the function, then the comma-joined arguments in parentheses.  Arguments
are taken already rendered. -/
def prepare_function_call (d : Dialect) (f : Function) (args : List SqlText) : SqlText :=
  function_name d f ++ '(' :: join_args args ++ [')']

/-- The `font_family` enum of the repository's doc tests
(src/extension/postgres/types.rs lines 104-134), used as concrete witness
input. -/
def font_family_example : TypeCreateStatement :=
  (TypeCreateStatement.new.as_enum ⟨"font_family"⟩).add_values
    [⟨"serif"⟩, ⟨"sans"⟩, ⟨"monospace"⟩]

end SeaQuery

namespace SeaQuery

/-- A list-level view of appending: data of an appended string. -/
theorem sdata_append (a b : String) : (a ++ b).data = a.data ++ b.data := by
  cases a; cases b; rfl

/-- Data of a pushed character. -/
theorem sdata_push (s : String) (c : Char) : (s.push c).data = s.data ++ [c] := by
  cases s; rfl

/-- C8: for every identifier `i`, sink state `s` and quote character `q`,
`Iden::prepare` writes exactly the quote character, then the text that
`unquoted` writes, then the quote character again: the sink afterwards
holds its old content followed by `q`, the unquoted text, and `q`. -/
theorem C8_iden_prepare_quotes (i : Iden) (s : String) (q : Char) :
    (i.prepare s q).data = s.data ++ q :: (i.text.data ++ [q]) := by
  cases s with
  | mk l =>
    cases i with
    | mk t =>
      cases t with
      | mk m =>
        simp [Iden.prepare, Iden.unquoted, sdata_push, sdata_append, String.push]

/-- C9: `Iden::to_string` returns exactly the text written by `unquoted`
into a fresh empty sink, with no quote characters added. -/
theorem C9_iden_to_string_unquoted (i : Iden) :
    i.to_string = i.text ∧ i.to_string = i.unquoted "" := by
  cases i with
  | mk t =>
    cases t with
    | mk m =>
      refine ⟨?_, rfl⟩
      simp [Iden.to_string, Iden.unquoted]

/-- C1: `TableRef::alias` turns `Table(t)` into `TableAlias(t, a)` and
`SchemaTable(s, t)` into `SchemaTableAlias(s, t, a)`; on an already-aliased
variant or on `SubQuery` it fails with `UnexpectedTableRefAlias` instead of
returning a value. -/
theorem C1_tableref_alias (t sch al a : Iden) (sel : SelectStatement) :
    (TableRef.Table t).alias a = .ok (.TableAlias t a) ∧
    (TableRef.SchemaTable sch t).alias a = .ok (.SchemaTableAlias sch t a) ∧
    (TableRef.TableAlias t al).alias a = .error .UnexpectedTableRefAlias ∧
    (TableRef.SchemaTableAlias sch t al).alias a = .error .UnexpectedTableRefAlias ∧
    (TableRef.SubQuery sel al).alias a = .error .UnexpectedTableRefAlias :=
  ⟨rfl, rfl, rfl, rfl, rfl⟩

/-- C5: on a `TypeAlterStatement` whose option slot holds `Add(x, _)`,
`before(v)` rewrites the slot to `Add(x, Before(v))` and `after(v)` to
`Add(x, After(v))`, leaving every other field unchanged; on any other slot
content (`Rename`, `RenameValue`, or no option at all) both modifiers
return the statement unchanged. -/
theorem C5_type_alter_before_after (s : TypeAlterStatement) (v x : Iden)
    (o : Option TypeAlterAddOpt) :
    (s.option = some (.Add x o) →
      s.before v = { s with option := some (.Add x (some (.Before v))) } ∧
      s.after v = { s with option := some (.Add x (some (.After v))) }) ∧
    ((∀ x' o', s.option ≠ some (.Add x' o')) →
      s.before v = s ∧ s.after v = s) := by
  constructor
  · intro h
    constructor
    · simp [TypeAlterStatement.before, h, TypeAlterOpt.before]
    · simp [TypeAlterStatement.after, h, TypeAlterOpt.after]
  · intro h
    obtain ⟨nm, opt⟩ := s
    cases opt with
    | none =>
      exact ⟨rfl, rfl⟩
    | some o' =>
      cases o' with
      | Add x' o'' => exact absurd rfl (h x' o'')
      | Rename n =>
        exact ⟨rfl, rfl⟩
      | RenameValue a b =>
        exact ⟨rfl, rfl⟩

/-- Witness for C5 at a concrete statement: an `Add` slot picks up
`Before`, and a `Rename` slot ignores the modifier. -/
theorem C5_type_alter_before_after_witness :
    (TypeAlterStatement.mk none (some (.Add ⟨"cursive"⟩ none))).before ⟨"serif"⟩
      = TypeAlterStatement.mk none (some (.Add ⟨"cursive"⟩ (some (.Before ⟨"serif"⟩)))) ∧
    (TypeAlterStatement.mk none (some (.Rename ⟨"family"⟩))).before ⟨"serif"⟩
      = TypeAlterStatement.mk none (some (.Rename ⟨"family"⟩)) :=
  ⟨((C5_type_alter_before_after
      (TypeAlterStatement.mk none (some (.Add ⟨"cursive"⟩ none)))
      ⟨"serif"⟩ ⟨"cursive"⟩ none).1 rfl).1,
   ((C5_type_alter_before_after
      (TypeAlterStatement.mk none (some (.Rename ⟨"family"⟩)))
      ⟨"serif"⟩ ⟨"cursive"⟩ none).2 (by intro x' o' h; cases h)).1⟩

/-- C10: every `TableForeignKey` builder method modifies only its own
field: the single-slot setters overwrite exactly one slot and the column
methods append exactly one element to their list, all other fields being
returned unchanged. -/
theorem C10_foreign_key_frame (fk : TableForeignKey) (n : String) (t c : Iden)
    (a : ForeignKeyAction) :
    ((fk.set_name n).name = some n ∧
     (fk.set_name n).table = fk.table ∧
     (fk.set_name n).ref_table = fk.ref_table ∧
     (fk.set_name n).columns = fk.columns ∧
     (fk.set_name n).ref_columns = fk.ref_columns ∧
     (fk.set_name n).on_delete = fk.on_delete ∧
     (fk.set_name n).on_update = fk.on_update) ∧
    ((fk.from_tbl t).table = some t ∧
     (fk.from_tbl t).name = fk.name ∧
     (fk.from_tbl t).ref_table = fk.ref_table ∧
     (fk.from_tbl t).columns = fk.columns ∧
     (fk.from_tbl t).ref_columns = fk.ref_columns ∧
     (fk.from_tbl t).on_delete = fk.on_delete ∧
     (fk.from_tbl t).on_update = fk.on_update) ∧
    ((fk.to_tbl t).ref_table = some t ∧
     (fk.to_tbl t).name = fk.name ∧
     (fk.to_tbl t).table = fk.table ∧
     (fk.to_tbl t).columns = fk.columns ∧
     (fk.to_tbl t).ref_columns = fk.ref_columns ∧
     (fk.to_tbl t).on_delete = fk.on_delete ∧
     (fk.to_tbl t).on_update = fk.on_update) ∧
    ((fk.from_col c).columns = fk.columns ++ [c] ∧
     (fk.from_col c).name = fk.name ∧
     (fk.from_col c).table = fk.table ∧
     (fk.from_col c).ref_table = fk.ref_table ∧
     (fk.from_col c).ref_columns = fk.ref_columns ∧
     (fk.from_col c).on_delete = fk.on_delete ∧
     (fk.from_col c).on_update = fk.on_update) ∧
    ((fk.to_col c).ref_columns = fk.ref_columns ++ [c] ∧
     (fk.to_col c).name = fk.name ∧
     (fk.to_col c).table = fk.table ∧
     (fk.to_col c).ref_table = fk.ref_table ∧
     (fk.to_col c).columns = fk.columns ∧
     (fk.to_col c).on_delete = fk.on_delete ∧
     (fk.to_col c).on_update = fk.on_update) ∧
    ((fk.set_on_delete a).on_delete = some a ∧
     (fk.set_on_delete a).name = fk.name ∧
     (fk.set_on_delete a).table = fk.table ∧
     (fk.set_on_delete a).ref_table = fk.ref_table ∧
     (fk.set_on_delete a).columns = fk.columns ∧
     (fk.set_on_delete a).ref_columns = fk.ref_columns ∧
     (fk.set_on_delete a).on_update = fk.on_update) ∧
    ((fk.set_on_update a).on_update = some a ∧
     (fk.set_on_update a).name = fk.name ∧
     (fk.set_on_update a).table = fk.table ∧
     (fk.set_on_update a).ref_table = fk.ref_table ∧
     (fk.set_on_update a).columns = fk.columns ∧
     (fk.set_on_update a).ref_columns = fk.ref_columns ∧
     (fk.set_on_update a).on_delete = fk.on_delete) :=
  ⟨⟨rfl, rfl, rfl, rfl, rfl, rfl, rfl⟩,
   ⟨rfl, rfl, rfl, rfl, rfl, rfl, rfl⟩,
   ⟨rfl, rfl, rfl, rfl, rfl, rfl, rfl⟩,
   ⟨rfl, rfl, rfl, rfl, rfl, rfl, rfl⟩,
   ⟨rfl, rfl, rfl, rfl, rfl, rfl, rfl⟩,
   ⟨rfl, rfl, rfl, rfl, rfl, rfl, rfl⟩,
   ⟨rfl, rfl, rfl, rfl, rfl, rfl, rfl⟩⟩

theorem bindE_assoc {α β γ : Type} (m : Except Error α) (f : α → Except Error β)
    (g : β → Except Error γ) :
    bindE (bindE m f) g = bindE m (fun a => bindE (f a) g) := by
  cases m <;> rfl

theorem bindE_ok_id {α : Type} (m : Except Error α) :
    bindE m (fun a => .ok a) = m := by
  cases m <;> rfl

theorem digitChar_spec (m : Nat) (h : m < 10) :
    (Nat.digitChar m).isDigit = true ∧ digitVal (Nat.digitChar m) = m ∧
      Nat.digitChar m ≠ '$' := by
  interval_cases m <;> exact ⟨rfl, rfl, by decide⟩

theorem digitsToNat_snoc (xs : List Char) (c : Char) :
    digitsToNat (xs ++ [c]) = digitsToNat xs * 10 + digitVal c := by
  simp [digitsToNat, List.foldl_append]

theorem natChars_spec (f : Nat) : ∀ n, n < f →
    natChars f n ≠ [] ∧ (∀ c ∈ natChars f n, c.isDigit = true ∧ c ≠ '$') ∧
      digitsToNat (natChars f n) = n := by
  induction f with
  | zero => intro n h; omega
  | succ f ih =>
    intro n h
    by_cases h10 : n < 10
    · refine ⟨by simp [natChars, h10], ?_, ?_⟩
      · intro c hc
        simp [natChars, h10] at hc
        subst hc
        exact ⟨(digitChar_spec n h10).1, (digitChar_spec n h10).2.2⟩
      · simp [natChars, h10, digitsToNat, digitVal]
        exact (digitChar_spec n h10).2.1
    · have hdiv : n / 10 < f := by
        have h1 : n / 10 < n := Nat.div_lt_self (by omega) (by omega)
        omega
      obtain ⟨hne, hdig, hval⟩ := ih (n / 10) hdiv
      have hmod : n % 10 < 10 := Nat.mod_lt n (by omega)
      refine ⟨by simp [natChars, h10], ?_, ?_⟩
      · intro c hc
        simp [natChars, h10] at hc
        rcases hc with hc | hc
        · exact hdig c hc
        · subst hc
          exact ⟨(digitChar_spec _ hmod).1, (digitChar_spec _ hmod).2.2⟩
      · simp only [natChars, h10, if_false]
        rw [digitsToNat_snoc, hval, (digitChar_spec _ hmod).2.1]
        omega

theorem natToChars_ne_nil (n : Nat) : natToChars n ≠ [] :=
  (natChars_spec (n + 1) n (Nat.lt_succ_self n)).1

theorem natToChars_digits (n : Nat) :
    ∀ c ∈ natToChars n, c.isDigit = true ∧ c ≠ '$' :=
  (natChars_spec (n + 1) n (Nat.lt_succ_self n)).2.1

theorem digitsToNat_natToChars (n : Nat) : digitsToNat (natToChars n) = n :=
  (natChars_spec (n + 1) n (Nat.lt_succ_self n)).2.2

/-- The value a type-create statement pushes for one enum value. -/
theorem prepare_enum_values_eq {σ : Type} (c : σ → Value → σ) (vals : List Iden) :
    ∀ (st : σ) (n : Nat) (first : Bool),
    prepare_enum_values c vals st n first =
      (enum_ph_text n first vals,
        (vals.map fun v => Value.String v.text).foldl c st) := by
  induction vals with
  | nil => intro st n first; rfl
  | cons v rest ih =>
    intro st n first
    simp [prepare_enum_values, enum_ph_text, ih]

theorem foldl_push {α : Type} (xs : List α) : ∀ acc : List α,
    xs.foldl (fun l v => l ++ [v]) acc = acc ++ xs := by
  induction xs with
  | nil => intro acc; simp
  | cons x xs ih =>
    intro acc
    simp [List.foldl, ih]

/-- The SQL text produced by `build_ref`. -/
theorem build_ref_sql (s : TypeCreateStatement) :
    s.build_ref.1 =
      match s.as_type with
      | some .Enum =>
        "CREATE TYPE ".data ++ name_part s ++ " AS ENUM (".data ++
          enum_ph_text 0 true s.values ++ [')']
      | none => "CREATE TYPE ".data ++ name_part s := by
  cases hty : s.as_type with
  | none =>
    simp [TypeCreateStatement.build_ref, TypeCreateStatement.build_collect_ref,
      prepare_type_create_statement, hty]
  | some t =>
    cases t
    simp [TypeCreateStatement.build_ref, TypeCreateStatement.build_collect_ref,
      prepare_type_create_statement, hty, prepare_enum_values_eq]

/-- The values collected by `build_ref`: the enum value texts, in order. -/
theorem build_ref_values (s : TypeCreateStatement) :
    s.build_ref.2 =
      match s.as_type with
      | some .Enum => s.values.map fun v => Value.String v.text
      | none => [] := by
  cases hty : s.as_type with
  | none =>
    simp [TypeCreateStatement.build_ref, TypeCreateStatement.build_collect_ref,
      prepare_type_create_statement, hty]
  | some t =>
    cases t
    simp [TypeCreateStatement.build_ref, TypeCreateStatement.build_collect_ref,
      prepare_type_create_statement, hty, prepare_enum_values_eq, foldl_push]

/-- Scanning placeholder-free text passes it through unchanged. -/
theorem injectPG_pass (values : List Value) (t : SqlText) :
    ∀ (rest : SqlText) (used : Nat), (∀ c ∈ t, c ≠ '$') →
    injectPG values (t ++ rest) none used =
      bindE (injectPG values rest none used) fun r => .ok (t ++ r) := by
  induction t with
  | nil =>
    intro rest used _
    exact (bindE_ok_id _).symm
  | cons c t ih =>
    intro rest used h
    have hc : c ≠ '$' := h c (by simp)
    have ht : ∀ x ∈ t, x ≠ '$' := fun x hx => h x (by simp [hx])
    show injectPG values (c :: (t ++ rest)) none used = _
    rw [show injectPG values (c :: (t ++ rest)) none used
        = bindE (injectPG values (t ++ rest) none used) fun r => .ok (c :: r) from by
      simp [injectPG, hc]]
    rw [ih rest used ht, bindE_assoc]
    rfl

/-- Scanning digits while inside a placeholder accumulates them. -/
theorem injectPG_digits (values : List Value) (w : SqlText) :
    ∀ (ds tail : SqlText) (used : Nat), (∀ c ∈ w, c.isDigit = true) →
    injectPG values (w ++ tail) (some ds) used =
      injectPG values tail (some (ds ++ w)) used := by
  induction w with
  | nil => intro ds tail used _; simp
  | cons c w ih =>
    intro ds tail used h
    have hc : c.isDigit = true := h c (by simp)
    have hw : ∀ x ∈ w, x.isDigit = true := fun x hx => h x (by simp [hx])
    show injectPG values (c :: (w ++ tail)) (some ds) used = _
    rw [show injectPG values (c :: (w ++ tail)) (some ds) used
        = injectPG values (w ++ tail) (some (ds ++ [c])) used from by
      simp [injectPG, hc]]
    rw [ih (ds ++ [c]) tail used hw]
    simp [List.append_assoc]

/-- Leaving a non-empty placeholder at a non-digit boundary substitutes the
indexed value and resumes the scan with one more placeholder consumed. -/
theorem injectPG_finish (values : List Value) (tail ds : SqlText) (used : Nat)
    (hds : ds ≠ []) (hh : ∀ c, tail.head? = some c → c.isDigit = false) :
    injectPG values tail (some ds) used =
      bindE (phValue values (digitsToNat ds)) fun t1 =>
        bindE (injectPG values tail none (used + 1)) fun t2 => .ok (t1 ++ t2) := by
  have hempty : ds.isEmpty = false := by
    cases ds with
    | nil => exact absurd rfl hds
    | cons d ds' => rfl
  cases tail with
  | nil =>
    simp only [injectPG, hempty, Bool.false_eq_true, if_false]
    cases hv : phValue values (digitsToNat ds) with
    | error e => rfl
    | ok t =>
      simp only [bindE]
      by_cases hl : used + 1 = values.length
      · simp [hl]
      · simp [hl]
  | cons c rest =>
    have hc : c.isDigit = false := hh c rfl
    simp only [injectPG, hc, Bool.false_eq_true, if_false, hempty]
    by_cases hdol : c = '$'
    · subst hdol
      simp only [if_pos rfl]
      rfl
    · simp only [if_neg hdol]
      cases hv : phValue values (digitsToNat ds) with
      | error e => rfl
      | ok t =>
        simp only [bindE]
        cases injectPG values rest none (used + 1) <;> rfl

/-- The enum placeholder section never starts with a digit once a value
has been emitted, so a preceding placeholder always terminates. -/
theorem enum_ph_head (n : Nat) (vs : List Iden) (rest : SqlText)
    (hh : ∀ c, rest.head? = some c → c.isDigit = false) :
    ∀ c, (enum_ph_text n false vs ++ rest).head? = some c → c.isDigit = false := by
  cases vs with
  | nil =>
    intro c hc
    exact hh c (by simpa [enum_ph_text] using hc)
  | cons v vs' =>
    intro c hc
    simp [enum_ph_text] at hc
    subst hc
    rfl

/-- Scanning the placeholder section of the enum values substitutes each
value's escaped literal in positional order. -/
theorem injectPG_enum (vals : List Iden) :
    ∀ (acc : List Value) (first : Bool) (rest : SqlText),
    (∀ c, rest.head? = some c → c.isDigit = false) →
    injectPG (acc ++ vals.map fun v => Value.String v.text)
        (enum_ph_text acc.length first vals ++ rest) none acc.length =
      bindE (injectPG (acc ++ vals.map fun v => Value.String v.text) rest none
          (acc.length + vals.length)) fun t => .ok (enum_inline_text first vals ++ t) := by
  induction vals with
  | nil =>
    intro acc first rest _
    simp [enum_ph_text, enum_inline_text, bindE_ok_id]
  | cons v vs ih =>
    intro acc first rest hh
    have hsepf : ∀ c ∈ (if first then ([] : SqlText) else ", ".data), c ≠ '$' := by
      cases first <;> decide
    have hvalues :
        acc ++ (List.cons v vs).map (fun v => Value.String v.text) =
          (acc ++ [Value.String v.text]) ++ vs.map fun v => Value.String v.text := by
      simp
    have hlen : (acc ++ [Value.String v.text]).length = acc.length + 1 := by simp
    have hget : (acc ++ (List.cons v vs).map (fun v => Value.String v.text)).get?
        acc.length = some (Value.String v.text) := by
      rw [List.get?_append_right (Nat.le_refl _)]
      simp
    have hph : phValue (acc ++ (List.cons v vs).map fun v => Value.String v.text)
        (acc.length + 1) = .ok (value_inline (Value.String v.text)) := by
      simp only [phValue, Nat.add_sub_cancel, hget]
    -- unfold one step of the placeholder text
    simp only [enum_ph_text, List.append_assoc]
    rw [injectPG_pass _ _ _ _ hsepf]
    simp only [List.cons_append]
    rw [show injectPG (acc ++ (List.cons v vs).map fun v => Value.String v.text)
        ('$' :: (natToChars (acc.length + 1) ++
          (enum_ph_text (acc.length + 1) false vs ++ rest))) none acc.length =
      injectPG (acc ++ (List.cons v vs).map fun v => Value.String v.text)
        (natToChars (acc.length + 1) ++
          (enum_ph_text (acc.length + 1) false vs ++ rest)) (some []) acc.length
      from by simp [injectPG]]
    rw [injectPG_digits _ _ _ _ _ (fun c hc => (natToChars_digits _ c hc).1)]
    rw [injectPG_finish _ _ _ _ (by simpa using natToChars_ne_nil (acc.length + 1))
      (enum_ph_head _ vs rest hh)]
    rw [List.nil_append, digitsToNat_natToChars, hph]
    have ih' := ih (acc ++ [Value.String v.text]) false rest hh
    rw [hlen] at ih'
    rw [← hvalues] at ih'
    rw [ih']
    simp only [bindE, bindE_assoc, enum_inline_text]
    cases hres : injectPG (acc ++ (List.cons v vs).map fun v => Value.String v.text)
        rest none (acc.length + 1 + vs.length) with
    | error e =>
      rw [show acc.length + (List.cons v vs).length = acc.length + 1 + vs.length
        from by simp only [List.length_cons]; omega]
      rw [hres]
    | ok t =>
      rw [show acc.length + (List.cons v vs).length = acc.length + 1 + vs.length
        from by simp only [List.length_cons]; omega]
      rw [hres]
      simp [bindE]

/-- C4: `build` is the `build_collect` primitive specialised with a
vector-pushing collector: for every collector `c` and start state `st`,
`build_collect` returns exactly the SQL string of `build`, and the values
of `build` are exactly the sequence fed to `c` in invocation order — the
final collector state is the left fold of `c` over them. -/
theorem C4_build_is_collect_with_vector {σ : Type} (c : σ → Value → σ) (st : σ)
    (s : TypeCreateStatement) :
    (s.build_collect c st).1 = s.build.1 ∧
    (s.build_collect c st).2 = s.build.2.foldl c st := by
  cases hty : s.as_type with
  | none =>
    constructor <;>
      simp [TypeCreateStatement.build_collect, TypeCreateStatement.build,
        TypeCreateStatement.build_ref, TypeCreateStatement.build_collect_ref,
        prepare_type_create_statement, hty]
  | some t =>
    cases t
    constructor <;>
      simp [TypeCreateStatement.build_collect, TypeCreateStatement.build,
        TypeCreateStatement.build_ref, TypeCreateStatement.build_collect_ref,
        prepare_type_create_statement, hty, prepare_enum_values_eq, foldl_push]

theorem build_ref_sql_enum (s : TypeCreateStatement) (hty : s.as_type = some .Enum) :
    s.build_ref.1 = "CREATE TYPE ".data ++ name_part s ++ " AS ENUM (".data ++
      enum_ph_text 0 true s.values ++ [')'] := by
  rw [build_ref_sql s, hty]

theorem build_ref_values_enum (s : TypeCreateStatement) (hty : s.as_type = some .Enum) :
    s.build_ref.2 = s.values.map fun v => Value.String v.text := by
  rw [build_ref_values s, hty]

theorem build_ref_sql_plain (s : TypeCreateStatement) (hty : s.as_type = none) :
    s.build_ref.1 = "CREATE TYPE ".data ++ name_part s := by
  rw [build_ref_sql s, hty]

theorem build_ref_values_plain (s : TypeCreateStatement) (hty : s.as_type = none) :
    s.build_ref.2 = [] := by
  rw [build_ref_values s, hty]

/-- A clean name puts no placeholder trigger into the emitted header. -/
theorem name_part_clean (s : TypeCreateStatement) (h : name_clean s = true) :
    ∀ c ∈ name_part s, c ≠ '$' := by
  cases hn : s.name with
  | none => simp [name_part, hn]
  | some n =>
    intro c hc
    have hall : ∀ x ∈ n.text.data, x ≠ '$' := by simpa [name_clean, hn] using h
    simp [name_part, hn, quoted_iden, quote_char] at hc
    rcases hc with hc | hc | hc
    · subst hc; decide
    · exact hall c hc
    · subst hc; decide

/-- The full header of an enum type-create statement is placeholder-free
when the name is clean. -/
theorem header_clean (s : TypeCreateStatement) (h : name_clean s = true) :
    ∀ c ∈ "CREATE TYPE ".data ++ name_part s ++ " AS ENUM (".data, c ≠ '$' := by
  have hA : ∀ c ∈ "CREATE TYPE ".data, c ≠ '$' := by decide
  have hB : ∀ c ∈ " AS ENUM (".data, c ≠ '$' := by decide
  intro c hc
  rcases List.mem_append.mp hc with hc | hc
  · rcases List.mem_append.mp hc with hc | hc
    · exact hA c hc
    · exact name_part_clean s h c hc
  · exact hB c hc

/-- Round-trip inlining for `CREATE TYPE`: `to_string` succeeds and equals
the render with every placeholder replaced positionally by the escaped
literal of the corresponding collected value. -/
theorem to_string_eq_inlined (s : TypeCreateStatement) (h : name_clean s = true) :
    s.to_string = .ok (type_create_inlined s) := by
  cases hty : s.as_type with
  | none =>
    have hA : ∀ c ∈ "CREATE TYPE ".data, c ≠ '$' := by decide
    have hclean : ∀ c ∈ "CREATE TYPE ".data ++ name_part s, c ≠ '$' := by
      intro c hc
      rcases List.mem_append.mp hc with hc | hc
      · exact hA c hc
      · exact name_part_clean s h c hc
    simp only [TypeCreateStatement.to_string, inject_parameters,
      build_ref_sql_plain s hty, build_ref_values_plain s hty]
    rw [show "CREATE TYPE ".data ++ name_part s
        = ("CREATE TYPE ".data ++ name_part s) ++ ([] : SqlText) from by simp]
    rw [injectPG_pass _ _ _ _ hclean]
    simp [injectPG, bindE, type_create_inlined, hty]
  | some t =>
    cases t
    simp only [TypeCreateStatement.to_string, inject_parameters,
      build_ref_sql_enum s hty, build_ref_values_enum s hty]
    rw [show "CREATE TYPE ".data ++ name_part s ++ " AS ENUM (".data ++
        enum_ph_text 0 true s.values ++ [')']
        = ("CREATE TYPE ".data ++ name_part s ++ " AS ENUM (".data) ++
          (enum_ph_text 0 true s.values ++ [')']) from by
      simp [List.append_assoc]]
    rw [injectPG_pass _ _ _ _ (header_clean s h)]
    have henum := injectPG_enum s.values [] true [')']
      (by intro c hc; simp at hc; subst hc; rfl)
    simp only [List.nil_append, List.length_nil, Nat.zero_add] at henum
    rw [henum]
    have hclose : injectPG (s.values.map fun v => Value.String v.text) [')'] none
        s.values.length = .ok [')'] := by
      simp [injectPG, bindE, List.length_map]
    rw [hclose]
    simp [bindE, type_create_inlined, hty, List.append_assoc]

/-- Placeholder-free text contributes no placeholder indices. -/
theorem extractPH_pass (t : SqlText) :
    ∀ rest, (∀ c ∈ t, c ≠ '$') → extractPH (t ++ rest) none = extractPH rest none := by
  induction t with
  | nil => intro rest _; rfl
  | cons c t ih =>
    intro rest h
    have hc : c ≠ '$' := h c (by simp)
    have ht : ∀ x ∈ t, x ≠ '$' := fun x hx => h x (by simp [hx])
    show extractPH (c :: (t ++ rest)) none = _
    rw [show extractPH (c :: (t ++ rest)) none = extractPH (t ++ rest) none from by
      simp [extractPH, hc]]
    exact ih rest ht

/-- Digits accumulate into the pending placeholder of the index scan. -/
theorem extractPH_digits (w : SqlText) :
    ∀ ds tail, (∀ c ∈ w, c.isDigit = true) →
    extractPH (w ++ tail) (some ds) = extractPH tail (some (ds ++ w)) := by
  induction w with
  | nil => intro ds tail _; simp
  | cons c w ih =>
    intro ds tail h
    have hc : c.isDigit = true := h c (by simp)
    have hw : ∀ x ∈ w, x.isDigit = true := fun x hx => h x (by simp [hx])
    show extractPH (c :: (w ++ tail)) (some ds) = _
    rw [show extractPH (c :: (w ++ tail)) (some ds)
        = extractPH (w ++ tail) (some (ds ++ [c])) from by simp [extractPH, hc]]
    rw [ih (ds ++ [c]) tail hw]
    simp [List.append_assoc]

/-- A pending placeholder is flushed at a non-digit boundary. -/
theorem extractPH_finish (tail ds : SqlText) (hds : ds ≠ [])
    (hh : ∀ c, tail.head? = some c → c.isDigit = false) :
    extractPH tail (some ds) = digitsToNat ds :: extractPH tail none := by
  have hempty : ds.isEmpty = false := by
    cases ds with
    | nil => exact absurd rfl hds
    | cons d ds' => rfl
  cases tail with
  | nil => simp [extractPH, hempty]
  | cons c rest =>
    have hc : c.isDigit = false := hh c rfl
    by_cases hdol : c = '$' <;> simp [extractPH, hc, hempty, hdol]

/-- The placeholder indices of the enum value section are consecutive. -/
theorem extractPH_enum (vals : List Iden) :
    ∀ (n : Nat) (first : Bool) (rest : SqlText),
    (∀ c, rest.head? = some c → c.isDigit = false) →
    extractPH (enum_ph_text n first vals ++ rest) none =
      List.range' (n + 1) vals.length ++ extractPH rest none := by
  induction vals with
  | nil => intro n first rest _; simp [enum_ph_text, List.range']
  | cons v vs ih =>
    intro n first rest hh
    have hsepf : ∀ c ∈ (if first then ([] : SqlText) else ", ".data), c ≠ '$' := by
      cases first <;> decide
    simp only [enum_ph_text, List.append_assoc]
    rw [extractPH_pass _ _ hsepf]
    simp only [List.cons_append]
    rw [show extractPH
        ('$' :: (natToChars (n + 1) ++ (enum_ph_text (n + 1) false vs ++ rest))) none
        = extractPH (natToChars (n + 1) ++ (enum_ph_text (n + 1) false vs ++ rest))
            (some []) from by simp [extractPH]]
    rw [extractPH_digits _ _ _ (fun c hc => (natToChars_digits _ c hc).1)]
    rw [List.nil_append]
    rw [extractPH_finish _ _ (natToChars_ne_nil (n + 1)) (enum_ph_head _ vs rest hh)]
    rw [digitsToNat_natToChars, ih (n + 1) false rest hh]
    simp [List.range'_succ]

/-- The placeholder-free prefix of every type-create render. -/
theorem header_clean_plain (s : TypeCreateStatement) (h : name_clean s = true) :
    ∀ c ∈ "CREATE TYPE ".data ++ name_part s, c ≠ '$' := by
  have hA : ∀ c ∈ "CREATE TYPE ".data, c ≠ '$' := by decide
  intro c hc
  rcases List.mem_append.mp hc with hc | hc
  · exact hA c hc
  · exact name_part_clean s h c hc

/-- The only error a value lookup can raise is a bind mismatch. -/
theorem phValue_bm (values : List Value) (n : Nat) :
    ∀ e, phValue values n = .error e → e = .BindMismatch := by
  intro e h
  unfold phValue at h
  cases hg : values.get? (n - 1) with
  | none =>
    rw [hg] at h
    exact ((Except.error.injEq _ _).mp h).symm
  | some v =>
    rw [hg] at h
    exact Except.noConfusion h

theorem ok_bm {α : Type} (a : α) :
    ∀ e, (Except.ok a : Except Error α) = .error e → e = .BindMismatch :=
  fun _ h => Except.noConfusion h

theorem err_bm {α : Type} :
    ∀ e, (Except.error .BindMismatch : Except Error α) = .error e → e = .BindMismatch :=
  fun _ h => ((Except.error.injEq _ _).mp h).symm

theorem bindE_bm {α β : Type} (X : Except Error α) (f : α → Except Error β)
    (hX : ∀ e, X = .error e → e = .BindMismatch)
    (hf : ∀ a e, f a = .error e → e = .BindMismatch) :
    ∀ e, bindE X f = .error e → e = .BindMismatch := by
  intro e h
  cases X with
  | error e' =>
    simp only [bindE] at h
    exact (((Except.error.injEq _ _).mp h) ▸ hX e' rfl)
  | ok a =>
    simp only [bindE] at h
    exact hf a e h

theorem ite_bm {α : Type} (c : Prop) [Decidable c] (x y : Except Error α)
    (hx : ∀ e, x = .error e → e = .BindMismatch)
    (hy : ∀ e, y = .error e → e = .BindMismatch) :
    ∀ e, (if c then x else y) = .error e → e = .BindMismatch := by
  intro e h
  by_cases hc : c
  · rw [if_pos hc] at h; exact hx e h
  · rw [if_neg hc] at h; exact hy e h

/-- The placeholder scan can only fail as a bind mismatch. -/
theorem injectPG_bm (values : List Value) : ∀ (sql : SqlText) (mode : Option SqlText)
    (used : Nat), ∀ e, injectPG values sql mode used = .error e → e = .BindMismatch := by
  intro sql
  induction sql with
  | nil =>
    intro mode used
    cases mode with
    | none =>
      simp only [injectPG]
      exact ite_bm _ _ _ (ok_bm _) err_bm
    | some ds =>
      simp only [injectPG]
      exact ite_bm _ _ _
        (ite_bm _ _ _ (ok_bm _) err_bm)
        (bindE_bm _ _ (phValue_bm values _)
          (fun t => ite_bm _ _ _ (ok_bm _) err_bm))
  | cons c rest ih =>
    intro mode used
    cases mode with
    | none =>
      simp only [injectPG]
      exact ite_bm _ _ _ (ih (some []) used)
        (bindE_bm _ _ (ih none used) (fun t => ok_bm _))
    | some ds =>
      simp only [injectPG]
      exact ite_bm _ _ _ (ih (some (ds ++ [c])) used)
        (ite_bm _ _ _
          (ite_bm _ _ _
            (bindE_bm _ _ (ih (some []) used) (fun t => ok_bm _))
            (bindE_bm _ _ (ih none used) (fun t => ok_bm _)))
          (bindE_bm _ _ (phValue_bm values _)
            (fun t1 => ite_bm _ _ _
              (bindE_bm _ _ (ih (some []) (used + 1)) (fun t2 => ok_bm _))
              (bindE_bm _ _ (ih none (used + 1)) (fun t2 => ok_bm _)))))

/-- When the placeholder scan succeeds, the placeholders it consumed
account exactly for the value vector. -/
theorem injectPG_ok_count (values : List Value) : ∀ (sql : SqlText)
    (mode : Option SqlText) (used : Nat) (t : SqlText),
    injectPG values sql mode used = .ok t →
    used + (extractPH sql mode).length = values.length := by
  intro sql
  induction sql with
  | nil =>
    intro mode used t h
    cases mode with
    | none =>
      simp only [injectPG] at h
      split at h
      · next hl => simpa [extractPH] using hl
      · exact Except.noConfusion h
    | some ds =>
      by_cases hds : ds.isEmpty = true
      · simp only [injectPG] at h
        rw [if_pos hds] at h
        split at h
        · next hl => simp [extractPH, hds]; omega
        · exact Except.noConfusion h
      · simp only [injectPG] at h
        rw [if_neg hds] at h
        cases hp : phValue values (digitsToNat ds) with
        | error e =>
          rw [hp] at h; simp only [bindE] at h; exact Except.noConfusion h
        | ok v =>
          rw [hp] at h; simp only [bindE] at h
          split at h
          · next hl => simp [extractPH, hds]; omega
          · exact Except.noConfusion h
  | cons c rest ih =>
    intro mode used t h
    cases mode with
    | none =>
      simp only [injectPG] at h
      by_cases hdol : c = '$'
      · rw [if_pos hdol] at h
        have hrec := ih (some []) used t h
        simp only [extractPH]
        rw [if_pos hdol]
        exact hrec
      · rw [if_neg hdol] at h
        cases hx : injectPG values rest none used with
        | error e =>
          rw [hx] at h; simp only [bindE] at h; exact Except.noConfusion h
        | ok a =>
          have hrec := ih none used a hx
          simp only [extractPH]
          rw [if_neg hdol]
          exact hrec
    | some ds =>
      simp only [injectPG] at h
      by_cases hdig : c.isDigit = true
      · rw [if_pos hdig] at h
        have hrec := ih (some (ds ++ [c])) used t h
        simp only [extractPH]
        rw [if_pos hdig]
        exact hrec
      · rw [if_neg hdig] at h
        by_cases hds : ds.isEmpty = true
        · rw [if_pos hds] at h
          by_cases hdol : c = '$'
          · rw [if_pos hdol] at h
            cases hx : injectPG values rest (some []) used with
            | error e =>
              rw [hx] at h; simp only [bindE] at h; exact Except.noConfusion h
            | ok a =>
              have hrec := ih (some []) used a hx
              simp only [extractPH]
              rw [if_neg hdig, if_pos hds, if_pos hdol]
              exact hrec
          · rw [if_neg hdol] at h
            cases hx : injectPG values rest none used with
            | error e =>
              rw [hx] at h; simp only [bindE] at h; exact Except.noConfusion h
            | ok a =>
              have hrec := ih none used a hx
              simp only [extractPH]
              rw [if_neg hdig, if_pos hds, if_neg hdol]
              exact hrec
        · rw [if_neg hds] at h
          cases hp : phValue values (digitsToNat ds) with
          | error e =>
            rw [hp] at h; simp only [bindE] at h; exact Except.noConfusion h
          | ok t1 =>
            rw [hp] at h; simp only [bindE] at h
            by_cases hdol : c = '$'
            · rw [if_pos hdol] at h
              cases hx : injectPG values rest (some []) (used + 1) with
              | error e =>
                rw [hx] at h; simp only [bindE] at h; exact Except.noConfusion h
              | ok t2 =>
                have hrec := ih (some []) (used + 1) t2 hx
                simp only [extractPH]
                rw [if_neg hdig, if_neg hds, if_pos hdol]
                simp only [List.length_cons]
                omega
            · rw [if_neg hdol] at h
              cases hx : injectPG values rest none (used + 1) with
              | error e =>
                rw [hx] at h; simp only [bindE] at h; exact Except.noConfusion h
              | ok t2 =>
                have hrec := ih none (used + 1) t2 hx
                simp only [extractPH]
                rw [if_neg hdig, if_neg hds, if_neg hdol]
                simp only [List.length_cons]
                omega

/-- C2: placeholder parity and ordering for the `CREATE TYPE` statement:
`build` returns SQL whose placeholders, in textual order, are exactly
`$1 … $N` with `N` the length of the returned value vector — so the N-th
collected value corresponds to the N-th placeholder, and the placeholder
count equals the value count. -/
theorem C2_placeholder_parity (s : TypeCreateStatement) (h : name_clean s = true) :
    placeholder_indices s.build_ref.1 = List.range' 1 s.build_ref.2.length ∧
    count_placeholders s.build_ref.1 = s.build_ref.2.length := by
  have hidx : placeholder_indices s.build_ref.1 = List.range' 1 s.build_ref.2.length := by
    cases hty : s.as_type with
    | none =>
      rw [build_ref_sql_plain s hty, build_ref_values_plain s hty]
      show extractPH _ none = _
      rw [show "CREATE TYPE ".data ++ name_part s
          = ("CREATE TYPE ".data ++ name_part s) ++ ([] : SqlText) from by simp]
      rw [extractPH_pass _ _ (header_clean_plain s h)]
      simp [extractPH, List.range']
    | some ty =>
      cases ty
      rw [build_ref_sql_enum s hty, build_ref_values_enum s hty]
      show extractPH _ none = _
      rw [show "CREATE TYPE ".data ++ name_part s ++ " AS ENUM (".data ++
          enum_ph_text 0 true s.values ++ [')']
          = ("CREATE TYPE ".data ++ name_part s ++ " AS ENUM (".data) ++
            (enum_ph_text 0 true s.values ++ [')']) from by
        simp [List.append_assoc]]
      rw [extractPH_pass _ _ (header_clean s h)]
      rw [extractPH_enum s.values 0 true [')']
        (by intro c hc; simp at hc; subst hc; rfl)]
      rw [show extractPH [')'] none = [] from by simp [extractPH]]
      simp [List.length_map]
  refine ⟨hidx, ?_⟩
  unfold count_placeholders
  rw [hidx]
  simp [List.length_range']

/-- Witness for C2: the `font_family` example builds
`CREATE TYPE "font_family" AS ENUM ($1, $2, $3)` with three values, whose
placeholders are `$1, $2, $3` in order. -/
theorem C2_placeholder_parity_witness :
    name_clean font_family_example = true ∧
    placeholder_indices font_family_example.build_ref.1
      = List.range' 1 font_family_example.build_ref.2.length ∧
    count_placeholders font_family_example.build_ref.1
      = font_family_example.build_ref.2.length :=
  ⟨by decide, C2_placeholder_parity font_family_example (by decide)⟩

/-- C3: round-trip inlining: `to_string` equals the SQL of `build` with
each `$N` placeholder replaced positionally by the escaped literal of the
corresponding value, and a placeholder-vs-value count mismatch makes
`inject_parameters` fail `BindMismatch`. -/
theorem C3_roundtrip_inlining (s : TypeCreateStatement) (h : name_clean s = true) :
    s.to_string = .ok (type_create_inlined s) ∧
    ∀ (sql : SqlText) (values : List Value),
      count_placeholders sql ≠ values.length →
      inject_parameters sql values = .error .BindMismatch := by
  refine ⟨to_string_eq_inlined s h, ?_⟩
  intro sql values hne
  cases hres : injectPG values sql none 0 with
  | ok t =>
    exfalso
    have hcount := injectPG_ok_count values sql none 0 t hres
    exact hne (by simpa [count_placeholders, placeholder_indices] using hcount)
  | error e =>
    have he := injectPG_bm values sql none 0 e hres
    rw [inject_parameters, hres, he]

/-- Witness for C3: the `font_family` example inlines to the doc-test
string, and a placeholder with no value fails `BindMismatch`. -/
theorem C3_roundtrip_inlining_witness :
    name_clean font_family_example = true ∧
    font_family_example.to_string = .ok (type_create_inlined font_family_example) ∧
    inject_parameters ['$', '1'] [] = .error .BindMismatch :=
  ⟨by decide, (C3_roundtrip_inlining font_family_example (by decide)).1,
   (C3_roundtrip_inlining font_family_example (by decide)).2 ['$', '1'] [] (by decide)⟩

/-- C6: rendering a table-alter statement that carries no alter option
fails `AlterTableOptionEmpty` on every dialect and never produces a SQL
string. -/
theorem C6_alter_table_option_empty (d : Dialect) (s : TableAlterStatement)
    (h : s.alter_option = none) :
    prepare_table_alter_statement d s = .error .AlterTableOptionEmpty ∧
    ∀ t, prepare_table_alter_statement d s ≠ .ok t := by
  have he : prepare_table_alter_statement d s = .error .AlterTableOptionEmpty := by
    simp [prepare_table_alter_statement, h]
  refine ⟨he, fun t ht => ?_⟩
  rw [he] at ht
  exact Except.noConfusion ht

/-- Witness for C6: the bare `Table::alter()` statement of MySQL test
`alter_6` carries no option and fails. -/
theorem C6_alter_table_option_empty_witness :
    Table.alter.alter_option = none ∧
    prepare_table_alter_statement .Mysql Table.alter = .error .AlterTableOptionEmpty :=
  ⟨rfl, (C6_alter_table_option_empty .Mysql Table.alter rfl).1⟩

/-- C7: for every argument list, a `FunctionCall` of `IfNull` renders with
name IFNULL under MySQL and SQLite and COALESCE under Postgres, and a
`FunctionCall` of `CharLength` renders with name CHAR_LENGTH under MySQL
and Postgres and LENGTH under SQLite; `Func::if_null` and
`Func::char_length` construct exactly those calls. -/
theorem C7_function_dialect_names (args : List SqlText) (a b e : SimpleExpr) :
    prepare_function_call .Mysql .IfNull args
      = "IFNULL(".data ++ join_args args ++ [')'] ∧
    prepare_function_call .Sqlite .IfNull args
      = "IFNULL(".data ++ join_args args ++ [')'] ∧
    prepare_function_call .Postgres .IfNull args
      = "COALESCE(".data ++ join_args args ++ [')'] ∧
    prepare_function_call .Mysql .CharLength args
      = "CHAR_LENGTH(".data ++ join_args args ++ [')'] ∧
    prepare_function_call .Postgres .CharLength args
      = "CHAR_LENGTH(".data ++ join_args args ++ [')'] ∧
    prepare_function_call .Sqlite .CharLength args
      = "LENGTH(".data ++ join_args args ++ [')'] ∧
    Func.if_null a b = SimpleExpr.FunctionCall .IfNull [a, b] ∧
    Func.char_length e = SimpleExpr.FunctionCall .CharLength [e] :=
  ⟨rfl, rfl, rfl, rfl, rfl, rfl, rfl, rfl⟩

end SeaQuery
